import Mathlib

set_option maxRecDepth 100000

/-!
# Verification of the `lapic` crate (local APIC register model)

This development embeds, in Lean, the register-layout model of the `lapic`
Rust crate: the `LocalApic` register-file structure (`src/lib.rs`, a
`#[repr(C, align(16))]` struct) and the eighteen `#[bitfield(bits = 128)]`
register types it contains (`ApicId` through `TimerDivConf`).

The field tables (names, bit offsets, bit widths, reserved ranges) and the
struct layout (field order, sizes, alignments) are transcribed from the
source. The accessor semantics of the `#[bitfield]`-generated code come
from the `modular_bitfield` crate, whose generated code is not part of the
repository; those operations are modelled from the spec: a getter
right-shifts and masks, a setter clears the target bit range and ORs in the
shifted, width-masked input, and conversion to/from 16 raw bytes is
little-endian (spec §4.2 and §9). All arithmetic is on `Nat` with explicit
`% 2^w` masking, so every definition is executable.
-/

namespace Lapic

/-! ## Bitfield accessor model

Modelled from the spec: the `modular_bitfield`-generated accessors for each
`#[bitfield(bits = 128)]` register type. A register value is its raw
128-bit content, represented as a natural number `raw < 2^128`. The getter
for a field at bit offset `off` and width `w` right-shifts by `off` and
masks to `w` bits; the setter clears the `w`-bit range at `off` and ORs in
the shifted, width-masked input. -/

/-- Get the `w`-bit field at bit offset `off` of raw register content
`raw`: right-shift and mask. -/
def getField (raw off w : Nat) : Nat :=
  raw / 2 ^ off % 2 ^ w

/-- Set the `w`-bit field at bit offset `off` of raw register content
`raw` to `v`: keep the bits below `off`, insert the width-masked value,
keep the bits at and above `off + w`. -/
def setField (raw off w v : Nat) : Nat :=
  raw % 2 ^ off + v % 2 ^ w * 2 ^ off + raw / 2 ^ (off + w) * 2 ^ (off + w)

/-- Serialize `raw` to `n` little-endian bytes (least-significant byte
first), as the `modular_bitfield` `into_bytes` does for `n = 16`. -/
def intoBytes : Nat → Nat → List Nat
  | 0, _ => []
  | n + 1, raw => raw % 256 :: intoBytes n (raw / 256)

/-- Deserialize a little-endian byte list to a natural number, as the
`modular_bitfield` `from_bytes` does. -/
def fromBytes : List Nat → Nat
  | [] => 0
  | b :: bs => b + 256 * fromBytes bs

/-! ## Register types

One entry per `#[bitfield(bits = 128)]` type in `src/lib.rs`. Each named
field records its bit offset and bit width; each `#[skip]` range is
recorded in `reserved`, including the trailing `B96` slot padding. -/

/-- A named bitfield field: name, bit offset, bit width. -/
structure RegField where
  fname : String
  off : Nat
  width : Nat
deriving DecidableEq

/-- A register type: its name, its named fields and its reserved
(`#[skip]`) bit ranges as (offset, width) pairs. -/
structure RegType where
  rname : String
  fields : List RegField
  reserved : List (Nat × Nat)
deriving DecidableEq

/-- APIC ID Register: 24 skipped bits, a 4-bit `apic_id`, 4 skipped bits,
96 skipped bits. -/
def ApicId : RegType :=
  ⟨"ApicId", [⟨"apic_id", 24, 4⟩], [(0, 24), (28, 4), (32, 96)]⟩

/-- APIC Version Register: 8-bit `version`, 8 skipped, 8-bit `max_lvt`,
8 skipped, 96 skipped. -/
def ApicVersion : RegType :=
  ⟨"ApicVersion", [⟨"version", 0, 8⟩, ⟨"max_lvt", 16, 8⟩],
    [(8, 8), (24, 8), (32, 96)]⟩

/-- Priority register (TPR/APR/PPR): 8-bit `priority`, 24 skipped,
96 skipped. -/
def PriorityRegister : RegType :=
  ⟨"PriorityRegister", [⟨"priority", 0, 8⟩], [(8, 24), (32, 96)]⟩

/-- End of Interrupt Register: 32-bit `eoi`, 96 skipped. -/
def EndOfInterrupt : RegType :=
  ⟨"EndOfInterrupt", [⟨"eoi", 0, 32⟩], [(32, 96)]⟩

/-- Logical Destination Register: 24 skipped, 8-bit `logical_dst`,
96 skipped. -/
def LogicalDestination : RegType :=
  ⟨"LogicalDestination", [⟨"logical_dst", 24, 8⟩], [(0, 24), (32, 96)]⟩

/-- Destination Format Register: 28 skipped, 4-bit `model`, 96 skipped. -/
def DestinationFormat : RegType :=
  ⟨"DestinationFormat", [⟨"model", 28, 4⟩], [(0, 28), (32, 96)]⟩

/-- Spurious Interrupt Vector Register: 8-bit `spurious_vector`, 1-bit
`apic_enabled`, 1-bit `focus_cpu`, 22 skipped, 96 skipped. -/
def SpuriousInterruptVector : RegType :=
  ⟨"SpuriousInterruptVector",
    [⟨"spurious_vector", 0, 8⟩, ⟨"apic_enabled", 8, 1⟩, ⟨"focus_cpu", 9, 1⟩],
    [(10, 22), (32, 96)]⟩

/-- Bitfield register (ISR/TMR/IRR slots): 32-bit `bitfield`,
96 skipped. -/
def BitfieldRegister : RegType :=
  ⟨"BitfieldRegister", [⟨"bitfield", 0, 32⟩], [(32, 96)]⟩

/-- Error Status Register: seven 1-bit flags with a skipped bit 4,
24 skipped, 96 skipped. -/
def ErrorStatus : RegType :=
  ⟨"ErrorStatus",
    [⟨"send_cs", 0, 1⟩, ⟨"recv_cs", 1, 1⟩, ⟨"send_accept", 2, 1⟩,
     ⟨"recv_accept", 3, 1⟩, ⟨"send_illegal_vector", 5, 1⟩,
     ⟨"recv_illegal_vector", 6, 1⟩, ⟨"illegal_register_addr", 7, 1⟩],
    [(4, 1), (8, 24), (32, 96)]⟩

/-- Interrupt Command Register Low: `vector`, `delivery_mode`,
`destination_mode`, `delivery_status`, skipped bit, `level`, `trigger`,
2 skipped, `shorthand`, 12 skipped, 96 skipped. -/
def InterruptCmdLow : RegType :=
  ⟨"InterruptCmdLow",
    [⟨"vector", 0, 8⟩, ⟨"delivery_mode", 8, 3⟩, ⟨"destination_mode", 11, 1⟩,
     ⟨"delivery_status", 12, 1⟩, ⟨"level", 14, 1⟩, ⟨"trigger", 15, 1⟩,
     ⟨"shorthand", 18, 2⟩],
    [(13, 1), (16, 2), (20, 12), (32, 96)]⟩

/-- Interrupt Command Register High: 24 skipped, 8-bit `dst`,
96 skipped. -/
def InterruptCmdHigh : RegType :=
  ⟨"InterruptCmdHigh", [⟨"dst", 24, 8⟩], [(0, 24), (32, 96)]⟩

/-- Timer Local Vector Table Entry: `vector`, 4 skipped,
`delivery_status`, 3 skipped, `mask`, `timer_mode`, 14 skipped,
96 skipped. -/
def TimerLVT : RegType :=
  ⟨"TimerLVT",
    [⟨"vector", 0, 8⟩, ⟨"delivery_status", 12, 1⟩, ⟨"mask", 16, 1⟩,
     ⟨"timer_mode", 17, 1⟩],
    [(8, 4), (13, 3), (18, 14), (32, 96)]⟩

/-- Thermal Local Vector Table Entry: `vector`, `delivery_mode`, skipped
bit, `delivery_status`, 3 skipped, `mask`, 15 skipped, 96 skipped. -/
def ThermalLVT : RegType :=
  ⟨"ThermalLVT",
    [⟨"vector", 0, 8⟩, ⟨"delivery_mode", 8, 3⟩, ⟨"delivery_status", 12, 1⟩,
     ⟨"mask", 16, 1⟩],
    [(11, 1), (13, 3), (17, 15), (32, 96)]⟩

/-- Performance Counter Local Vector Table Entry: same field layout as
the thermal entry. -/
def PerfLVT : RegType :=
  ⟨"PerfLVT",
    [⟨"vector", 0, 8⟩, ⟨"delivery_mode", 8, 3⟩, ⟨"delivery_status", 12, 1⟩,
     ⟨"mask", 16, 1⟩],
    [(11, 1), (13, 3), (17, 15), (32, 96)]⟩

/-- Local Interrupt Vector Table Entry: `vector`, `delivery_mode`,
skipped bit, `delivery_status`, `polarity`, `remote_irr`, `trigger`,
`mask`, 15 skipped, 96 skipped. -/
def LIntLVT : RegType :=
  ⟨"LIntLVT",
    [⟨"vector", 0, 8⟩, ⟨"delivery_mode", 8, 3⟩, ⟨"delivery_status", 12, 1⟩,
     ⟨"polarity", 13, 1⟩, ⟨"remote_irr", 14, 1⟩, ⟨"trigger", 15, 1⟩,
     ⟨"mask", 16, 1⟩],
    [(11, 1), (17, 15), (32, 96)]⟩

/-- Error Vector Table Entry: `vector`, 4 skipped, `delivery_status`,
3 skipped, `mask`, 15 skipped, 96 skipped. -/
def ErrorLVT : RegType :=
  ⟨"ErrorLVT",
    [⟨"vector", 0, 8⟩, ⟨"delivery_status", 12, 1⟩, ⟨"mask", 16, 1⟩],
    [(8, 4), (13, 3), (17, 15), (32, 96)]⟩

/-- Timer Count Register (initial/current): 32-bit `count`,
96 skipped. -/
def TimerCount : RegType :=
  ⟨"TimerCount", [⟨"count", 0, 32⟩], [(32, 96)]⟩

/-- Timer Divide Configuration Register: 4-bit `divisor`, 28 skipped,
96 skipped. -/
def TimerDivConf : RegType :=
  ⟨"TimerDivConf", [⟨"divisor", 0, 4⟩], [(4, 28), (32, 96)]⟩

/-- The 18 `#[bitfield(bits = 128)]` register types of `src/lib.rs`, in
source order. -/
def registers : List RegType := [
  ApicId, ApicVersion, PriorityRegister, EndOfInterrupt,
  LogicalDestination, DestinationFormat, SpuriousInterruptVector,
  BitfieldRegister, ErrorStatus, InterruptCmdLow, InterruptCmdHigh,
  TimerLVT, ThermalLVT, PerfLVT, LIntLVT, ErrorLVT, TimerCount,
  TimerDivConf]

/-- The default value of every register type: derived `Default` on a
`modular_bitfield` struct zeroes all 16 bytes, hence raw content 0. -/
def registerDefault : Nat := 0

/-- Two bit ranges are disjoint when one ends at or before the other
starts. -/
def rangesDisjoint (o1 w1 o2 w2 : Nat) : Prop :=
  o1 + w1 ≤ o2 ∨ o2 + w2 ≤ o1

instance (o1 w1 o2 w2 : Nat) : Decidable (rangesDisjoint o1 w1 o2 w2) := by
  unfold rangesDisjoint
  infer_instance

/-- Register values reachable from the default by applying field setters
of the given register type. -/
inductive Reachable (T : RegType) : Nat → Prop
  | base : Reachable T registerDefault
  | step (raw : Nat) (f : RegField) (v : Nat) (hf : f ∈ T.fields)
      (h : Reachable T raw) : Reachable T (setField raw f.off f.width v)

/-! ## The `LocalApic` register file layout

Transcribed from the `#[repr(C, align(16))] pub struct LocalApic` in
`src/lib.rs`: one entry per declared field in source order, with the
field's size and alignment in bytes. Bitfield register types are 16 bytes
with alignment 1 (their representation is a 16-byte array); `Reserved` is
`#[repr(transparent)] [u32; 4]` (16 bytes, alignment 4); arrays multiply
the size. Offsets follow the C struct layout rules: each field is placed
at the current size aligned up to the field's alignment. -/

/-- A `LocalApic` struct field: name, byte size, byte alignment. -/
structure LayoutField where
  name : String
  size : Nat
  align : Nat
deriving DecidableEq

/-- The fields of `LocalApic`, in declaration order. -/
def localApicLayout : List LayoutField := [
  ⟨"__reserved1", 32, 4⟩,
  ⟨"apic_id", 16, 1⟩,
  ⟨"apic_version", 16, 1⟩,
  ⟨"__reserved2", 64, 4⟩,
  ⟨"task_priority", 16, 1⟩,
  ⟨"arb_priority", 16, 1⟩,
  ⟨"processor_priority", 16, 1⟩,
  ⟨"eoi", 16, 1⟩,
  ⟨"__reserved7", 16, 4⟩,
  ⟨"logical_dst", 16, 1⟩,
  ⟨"dst_format", 16, 1⟩,
  ⟨"spurious_iv", 16, 1⟩,
  ⟨"in_service", 128, 1⟩,
  ⟨"trigger_mode", 128, 1⟩,
  ⟨"interrupt_request", 128, 1⟩,
  ⟨"error_status", 16, 1⟩,
  ⟨"__reserved8", 112, 4⟩,
  ⟨"interrupt_cmd_low", 16, 1⟩,
  ⟨"interrupt_cmd_high", 16, 1⟩,
  ⟨"timer_lvt", 16, 1⟩,
  ⟨"thermal_lvt", 16, 1⟩,
  ⟨"performance_lvt", 16, 1⟩,
  ⟨"lint0_lvt", 16, 1⟩,
  ⟨"lint1_lvt", 16, 1⟩,
  ⟨"error_lvt", 16, 1⟩,
  ⟨"timer_icr", 16, 1⟩,
  ⟨"timer_ccr", 16, 1⟩,
  ⟨"__reserved9", 64, 4⟩,
  ⟨"timer_dcr", 16, 1⟩,
  ⟨"__reserved10", 16, 4⟩]

/-- Round `n` up to the next multiple of `a`. -/
def alignUp (n a : Nat) : Nat := (n + a - 1) / a * a

/-- C-layout field offsets: place each field at the running size aligned
up to the field's alignment. -/
def offsetsFrom : List LayoutField → Nat → List (String × Nat)
  | [], _ => []
  | f :: fs, pos =>
    let o := alignUp pos f.align
    (f.name, o) :: offsetsFrom fs (o + f.size)

/-- Byte offset of every `LocalApic` field. -/
def localApicOffsets : List (String × Nat) := offsetsFrom localApicLayout 0

/-- Byte offset of a named `LocalApic` field. -/
def offsetOf (s : String) : Option Nat := localApicOffsets.lookup s

/-- End position of the last field. -/
def endPos : List LayoutField → Nat → Nat
  | [], pos => pos
  | f :: fs, pos => endPos fs (alignUp pos f.align + f.size)

/-- Declared alignment of `LocalApic` (`#[repr(C, align(16))]`). -/
def localApicAlign : Nat := 16

/-- Size of `LocalApic`: the end of the last field, rounded up to the
struct alignment. -/
def localApicSize : Nat := alignUp (endPos localApicLayout 0) localApicAlign

/-! ## Default byte image of `LocalApic`

The derived `Default` zero-initializes every field; the byte image of the
default struct is the concatenation of the per-field default bytes in
declaration order (the layout has no implicit padding: every field offset
is already aligned). -/

/-- Default bytes of one bitfield register: its all-zero raw content
serialized to 16 bytes. -/
def registerDefaultBytes : List Nat := intoBytes 16 registerDefault

/-- Default bytes of the `Reserved` padding type (`[u32; 4]`, each `u32`
zero, serialized little-endian). -/
def reservedDefaultBytes : List Nat := (List.replicate 4 (intoBytes 4 0)).flatten

/-- Default bytes of the `__reserved7: [u32; 4]` field. -/
def u32x4DefaultBytes : List Nat := (List.replicate 4 (intoBytes 4 0)).flatten

/-- Byte image of a default-constructed `LocalApic`, field by field in
declaration order. -/
def localApicDefaultBytes : List Nat :=
  (List.replicate 2 reservedDefaultBytes).flatten ++
  registerDefaultBytes ++
  registerDefaultBytes ++
  (List.replicate 4 reservedDefaultBytes).flatten ++
  registerDefaultBytes ++ registerDefaultBytes ++ registerDefaultBytes ++
  registerDefaultBytes ++
  u32x4DefaultBytes ++
  registerDefaultBytes ++ registerDefaultBytes ++ registerDefaultBytes ++
  (List.replicate 8 registerDefaultBytes).flatten ++
  (List.replicate 8 registerDefaultBytes).flatten ++
  (List.replicate 8 registerDefaultBytes).flatten ++
  registerDefaultBytes ++
  (List.replicate 7 reservedDefaultBytes).flatten ++
  registerDefaultBytes ++ registerDefaultBytes ++ registerDefaultBytes ++
  registerDefaultBytes ++ registerDefaultBytes ++ registerDefaultBytes ++
  registerDefaultBytes ++ registerDefaultBytes ++ registerDefaultBytes ++
  registerDefaultBytes ++
  (List.replicate 4 reservedDefaultBytes).flatten ++
  registerDefaultBytes ++
  reservedDefaultBytes

/-! ## Generic bit-arithmetic lemmas -/

theorem low_part_lt (raw off w v : Nat) :
    raw % 2 ^ off + v % 2 ^ w * 2 ^ off < 2 ^ (off + w) := by
  have h1 : raw % 2 ^ off < 2 ^ off := Nat.mod_lt _ (Nat.pos_pow_of_pos _ (by norm_num))
  have h2 : v % 2 ^ w < 2 ^ w := Nat.mod_lt _ (Nat.pos_pow_of_pos _ (by norm_num))
  have h3 : v % 2 ^ w * 2 ^ off ≤ (2 ^ w - 1) * 2 ^ off :=
    Nat.mul_le_mul_right _ (by omega)
  have h4 : 2 ^ (off + w) = 2 ^ off * 2 ^ w := pow_add 2 off w
  have h5 : 0 < 2 ^ w := Nat.pos_pow_of_pos _ (by norm_num)
  calc raw % 2 ^ off + v % 2 ^ w * 2 ^ off
      ≤ raw % 2 ^ off + (2 ^ w - 1) * 2 ^ off := by omega
    _ < 2 ^ off + (2 ^ w - 1) * 2 ^ off := by omega
    _ = 2 ^ off * 2 ^ w := by
        rw [Nat.sub_mul, Nat.one_mul]
        have : 2 ^ off ≤ 2 ^ w * 2 ^ off :=
          Nat.le_mul_of_pos_left _ h5
        rw [Nat.mul_comm (2 ^ off) (2 ^ w)]
        omega
    _ = 2 ^ (off + w) := (pow_add 2 off w).symm

/-- Bits at and above `off + w` are unchanged by `setField`. -/
theorem setField_div_high (raw off w v m : Nat) (h : off + w ≤ m) :
    setField raw off w v / 2 ^ m = raw / 2 ^ m := by
  unfold setField
  have hsplit : 2 ^ m = 2 ^ (off + w) * 2 ^ (m - (off + w)) := by
    rw [← pow_add]
    congr 1
    omega
  have hpos : 0 < 2 ^ (off + w) := Nat.pos_pow_of_pos _ (by norm_num)
  have hlow := low_part_lt raw off w v
  rw [hsplit, ← Nat.div_div_eq_div_mul, ← Nat.div_div_eq_div_mul]
  congr 1
  rw [Nat.add_mul_div_right _ _ hpos, Nat.div_eq_of_lt hlow]
  omega

/-- Bits below `off` are unchanged by `setField`. -/
theorem setField_mod_low (raw off w v m : Nat) (h : m ≤ off) :
    setField raw off w v % 2 ^ m = raw % 2 ^ m := by
  unfold setField
  have hdvd1 : 2 ^ m ∣ 2 ^ off := pow_dvd_pow 2 h
  have hdvd2 : 2 ^ m ∣ 2 ^ (off + w) := pow_dvd_pow 2 (by omega)
  obtain ⟨x, hx⟩ : 2 ^ m ∣ v % 2 ^ w * 2 ^ off := Dvd.dvd.mul_left hdvd1 _
  obtain ⟨y, hy⟩ : 2 ^ m ∣ raw / 2 ^ (off + w) * 2 ^ (off + w) :=
    Dvd.dvd.mul_left hdvd2 _
  rw [hx, hy, Nat.add_mul_mod_self_left, Nat.add_mul_mod_self_left]
  exact Nat.mod_mod_of_dvd raw hdvd1

/-- Reading back the field just written returns the width-masked value. -/
theorem getField_setField_self (raw off w v : Nat) :
    getField (setField raw off w v) off w = v % 2 ^ w := by
  unfold getField setField
  have hpos : 0 < 2 ^ off := Nat.pos_pow_of_pos _ (by norm_num)
  have hlt : raw % 2 ^ off < 2 ^ off := Nat.mod_lt _ hpos
  rw [pow_add, ← Nat.mul_assoc]
  rw [Nat.mul_right_comm (raw / (2 ^ off * 2 ^ w)) (2 ^ off) (2 ^ w)]
  rw [Nat.add_mul_div_right _ _ hpos]
  rw [Nat.add_mul_div_right _ _ hpos]
  rw [Nat.div_eq_of_lt hlt]
  rw [Nat.add_mul_mod_self_right]
  simp [Nat.mod_mod_of_dvd]

/-- Round trip: writing a representable value and reading it back is the
identity. -/
theorem getField_setField_same (raw off w v : Nat) (h : v < 2 ^ w) :
    getField (setField raw off w v) off w = v := by
  rw [getField_setField_self, Nat.mod_eq_of_lt h]

/-- Reading a field strictly above the written range sees no change. -/
theorem getField_setField_above (raw o1 w1 v o2 w2 : Nat) (h : o1 + w1 ≤ o2) :
    getField (setField raw o1 w1 v) o2 w2 = getField raw o2 w2 := by
  unfold getField
  rw [setField_div_high raw o1 w1 v o2 h]

/-- Reading a field strictly below the written range sees no change. -/
theorem getField_setField_below (raw o1 w1 v o2 w2 : Nat) (h : o2 + w2 ≤ o1) :
    getField (setField raw o1 w1 v) o2 w2 = getField raw o2 w2 := by
  unfold getField
  rw [← Nat.mod_mul_right_div_self, ← Nat.mod_mul_right_div_self, ← pow_add]
  rw [setField_mod_low raw o1 w1 v (o2 + w2) h]

/-- Writing the same field twice keeps only the last write. -/
theorem setField_setField_same (raw off w v1 v2 : Nat) :
    setField (setField raw off w v1) off w v2 = setField raw off w v2 := by
  conv_lhs => rw [setField]
  rw [setField_mod_low raw off w v1 off (Nat.le_refl _),
      setField_div_high raw off w v1 (off + w) (Nat.le_refl _)]
  rfl

/-- `setField` stays below `2 ^ m` whenever the register content does and
the field lies within the low `m` bits. -/
theorem setField_lt (raw off w v m : Nat) (hraw : raw < 2 ^ m)
    (hfit : off + w ≤ m) : setField raw off w v < 2 ^ m := by
  have hlow := low_part_lt raw off w v
  have hsplit : 2 ^ m = 2 ^ (off + w) * 2 ^ (m - (off + w)) := by
    rw [← pow_add]; congr 1; omega
  have hpos : 0 < 2 ^ (off + w) := Nat.pos_pow_of_pos _ (by norm_num)
  have hhi : raw / 2 ^ (off + w) < 2 ^ (m - (off + w)) := by
    rw [Nat.div_lt_iff_lt_mul hpos, Nat.mul_comm, ← hsplit]
    exact hraw
  unfold setField
  calc raw % 2 ^ off + v % 2 ^ w * 2 ^ off + raw / 2 ^ (off + w) * 2 ^ (off + w)
      < 2 ^ (off + w) + raw / 2 ^ (off + w) * 2 ^ (off + w) := by omega
    _ = (1 + raw / 2 ^ (off + w)) * 2 ^ (off + w) := by ring
    _ ≤ 2 ^ (m - (off + w)) * 2 ^ (off + w) := by
        apply Nat.mul_le_mul_right
        omega
    _ = 2 ^ m := by rw [← pow_add]; congr 1; omega

/-- The getter is bounded by the field's declared width. -/
theorem getField_lt (raw off w : Nat) : getField raw off w < 2 ^ w :=
  Nat.mod_lt _ (Nat.pos_pow_of_pos _ (by norm_num))

/-! ## Byte serialization lemmas -/

theorem intoBytes_length (n raw : Nat) : (intoBytes n raw).length = n := by
  induction n generalizing raw with
  | zero => rfl
  | succ n ih => simp [intoBytes, ih]

theorem intoBytes_bytes_lt (n raw : Nat) :
    ∀ b ∈ intoBytes n raw, b < 256 := by
  induction n generalizing raw with
  | zero => simp [intoBytes]
  | succ n ih =>
    intro b hb
    simp only [intoBytes, List.mem_cons] at hb
    rcases hb with h | h
    · subst h; exact Nat.mod_lt _ (by norm_num)
    · exact ih (raw / 256) b h

/-- A mod-splitting identity: the value is its low `m`-part plus `m` times
the next `k`-sized chunk. -/
theorem mod_mul_split (a m k : Nat) (hm : 0 < m) (hk : 0 < k) :
    a % (m * k) = a % m + m * (a / m % k) := by
  have hmk : 0 < m * k := Nat.mul_pos hm hk
  conv_lhs => rw [← Nat.div_add_mod a m]
  rw [Nat.add_mod, Nat.mul_mod_mul_left]
  have h1 : a % m % (m * k) = a % m :=
    Nat.mod_eq_of_lt (lt_of_lt_of_le (Nat.mod_lt _ hm) (Nat.le_mul_of_pos_right _ hk))
  rw [h1, Nat.add_comm (m * (a / m % k)) (a % m)]
  apply Nat.mod_eq_of_lt
  obtain ⟨j, rfl⟩ : ∃ j, k = j + 1 := ⟨k - 1, by omega⟩
  have h2 : a / m % (j + 1) ≤ j := by
    have := Nat.mod_lt (a / m) hk
    omega
  have h3 : m * (a / m % (j + 1)) ≤ m * j := Nat.mul_le_mul_left _ h2
  have h4 : a % m < m := Nat.mod_lt _ hm
  have h5 : m * (j + 1) = m * j + m := Nat.mul_succ m j
  omega

/-- Deserializing the `n`-byte serialization recovers the value mod
`256 ^ n`. -/
theorem fromBytes_intoBytes (n raw : Nat) :
    fromBytes (intoBytes n raw) = raw % 256 ^ n := by
  induction n generalizing raw with
  | zero => simp [intoBytes, fromBytes, Nat.mod_one]
  | succ n ih =>
    rw [intoBytes, fromBytes, ih]
    rw [pow_succ, Nat.mul_comm (256 ^ n) 256]
    rw [mod_mul_split raw 256 (256 ^ n) (by norm_num)
      (Nat.pos_pow_of_pos _ (by norm_num))]

/-- Serializing a deserialized byte list recovers the bytes verbatim,
provided each byte is in range. -/
theorem intoBytes_fromBytes (b : List Nat) (h : ∀ x ∈ b, x < 256) :
    intoBytes b.length (fromBytes b) = b := by
  induction b with
  | nil => rfl
  | cons x bs ih =>
    have hx : x < 256 := h x (List.mem_cons_self x bs)
    have hmod : (x + 256 * fromBytes bs) % 256 = x := by
      rw [Nat.add_mul_mod_self_left, Nat.mod_eq_of_lt hx]
    have hdiv : (x + 256 * fromBytes bs) / 256 = fromBytes bs := by
      rw [Nat.add_mul_div_left _ _ (by norm_num), Nat.div_eq_of_lt hx]
      omega
    simp only [List.length_cons, intoBytes, fromBytes, hmod, hdiv]
    rw [ih (fun y hy => h y (List.mem_cons_of_mem _ hy))]

/-- Deserialized in-range bytes are bounded by `256 ^ length`. -/
theorem fromBytes_lt (b : List Nat) (h : ∀ x ∈ b, x < 256) :
    fromBytes b < 256 ^ b.length := by
  induction b with
  | nil => simp [fromBytes]
  | cons x bs ih =>
    have hx : x < 256 := h x (List.mem_cons_self x bs)
    have hbs : fromBytes bs < 256 ^ bs.length :=
      ih (fun y hy => h y (List.mem_cons_of_mem _ hy))
    simp only [fromBytes, List.length_cons, pow_succ, Nat.mul_comm (256 ^ bs.length) 256]
    omega

/-- Serializing zero gives all-zero bytes. -/
theorem intoBytes_zero (n : Nat) : intoBytes n 0 = List.replicate n 0 := by
  induction n with
  | zero => rfl
  | succ n ih => simp [intoBytes, ih, List.replicate_succ]

/-- Serialization splits at any byte position. -/
theorem intoBytes_append (m n raw : Nat) :
    intoBytes (m + n) raw = intoBytes m raw ++ intoBytes n (raw / 256 ^ m) := by
  induction m generalizing raw with
  | zero => simp [intoBytes]
  | succ m ih =>
    rw [Nat.succ_add, intoBytes, intoBytes, ih (raw / 256)]
    simp only [List.cons_append, Nat.div_div_eq_div_mul]
    rw [← pow_succ']

/-- Values below `2 ^ 32` serialize with their upper 12 bytes zero. -/
theorem intoBytes_high_zero (raw : Nat) (h : raw < 2 ^ 32) :
    (intoBytes 16 raw).drop 4 = List.replicate 12 0 := by
  have hsplit : intoBytes 16 raw = intoBytes 4 raw ++ intoBytes 12 (raw / 256 ^ 4) :=
    intoBytes_append 4 12 raw
  have hdiv : raw / 256 ^ 4 = 0 := Nat.div_eq_of_lt (by norm_num at h ⊢; omega)
  rw [hsplit, hdiv, List.drop_left' (intoBytes_length 4 raw), intoBytes_zero]

/-! ## Claim theorems -/

/-- C1: the `LocalApic` structure has total size exactly 1024 bytes,
alignment 16 bytes, and every named register field begins at exactly the
byte offset of the hardware table (identification 0x20 through timer
divisor 0x3E0). -/
theorem localApic_layout_exact :
    localApicSize = 1024 ∧ localApicAlign = 16 ∧
    offsetOf "apic_id" = some 0x20 ∧
    offsetOf "apic_version" = some 0x30 ∧
    offsetOf "task_priority" = some 0x80 ∧
    offsetOf "arb_priority" = some 0x90 ∧
    offsetOf "processor_priority" = some 0xa0 ∧
    offsetOf "eoi" = some 0xb0 ∧
    offsetOf "logical_dst" = some 0xd0 ∧
    offsetOf "dst_format" = some 0xe0 ∧
    offsetOf "spurious_iv" = some 0xf0 ∧
    offsetOf "in_service" = some 0x100 ∧
    offsetOf "trigger_mode" = some 0x180 ∧
    offsetOf "interrupt_request" = some 0x200 ∧
    offsetOf "error_status" = some 0x280 ∧
    offsetOf "interrupt_cmd_low" = some 0x300 ∧
    offsetOf "interrupt_cmd_high" = some 0x310 ∧
    offsetOf "timer_lvt" = some 0x320 ∧
    offsetOf "thermal_lvt" = some 0x330 ∧
    offsetOf "performance_lvt" = some 0x340 ∧
    offsetOf "lint0_lvt" = some 0x350 ∧
    offsetOf "lint1_lvt" = some 0x360 ∧
    offsetOf "error_lvt" = some 0x370 ∧
    offsetOf "timer_icr" = some 0x380 ∧
    offsetOf "timer_ccr" = some 0x390 ∧
    offsetOf "timer_dcr" = some 0x3e0 := by
  decide

/-- C2: every operation on every register type is total: the getter of
every field is defined on any value and bounded by the field's declared
width, the setter maps any register value to a register value for every
input (the declared domain `v < 2^width` needs no runtime check), and
every 16-byte pattern is a valid register value. -/
theorem register_ops_total :
    ∀ T ∈ registers, ∀ f ∈ T.fields,
      (∀ raw, getField raw f.off f.width < 2 ^ f.width) ∧
      (∀ raw v, raw < 2 ^ 128 → setField raw f.off f.width v < 2 ^ 128) ∧
      (∀ b : List Nat, b.length = 16 → (∀ x ∈ b, x < 256) →
        fromBytes b < 2 ^ 128) := by
  have hfit : ∀ T ∈ registers, ∀ f ∈ T.fields, f.off + f.width ≤ 32 := by
    decide
  intro T hT f hf
  refine ⟨fun raw => getField_lt raw f.off f.width, ?_, ?_⟩
  · intro raw v hraw
    exact setField_lt raw f.off f.width v 128 hraw
      (le_trans (hfit T hT f hf) (by norm_num))
  · intro b hb hx
    have h := fromBytes_lt b hx
    rw [hb] at h
    calc fromBytes b < 256 ^ 16 := h
      _ = 2 ^ 128 := by norm_num

/-- C2 witness at the `apic_id` field of `ApicId`. -/
theorem register_ops_total_witness :
    (∀ raw, getField raw 24 4 < 2 ^ 4) ∧
    (∀ raw v, raw < 2 ^ 128 → setField raw 24 4 v < 2 ^ 128) ∧
    (∀ b : List Nat, b.length = 16 → (∀ x ∈ b, x < 256) →
      fromBytes b < 2 ^ 128) :=
  register_ops_total ApicId (by decide) ⟨"apic_id", 24, 4⟩ (by decide)

/-- C3: for every register type, every named field and every value
representable in the field's declared width, setting the field and then
getting it returns exactly that value. -/
theorem set_get_roundtrip :
    ∀ T ∈ registers, ∀ f ∈ T.fields, ∀ raw v, v < 2 ^ f.width →
      getField (setField raw f.off f.width v) f.off f.width = v := by
  intro T hT f hf raw v hv
  exact getField_setField_same raw f.off f.width v hv

/-- C3 witness: `apic_id := 3` reads back as 3. -/
theorem set_get_roundtrip_witness :
    getField (setField 0 24 4 3) 24 4 = 3 :=
  set_get_roundtrip ApicId (by decide) ⟨"apic_id", 24, 4⟩ (by decide) 0 3
    (by decide)

/-- C4: for every register type and every register value, serializing to
16 little-endian bytes and deserializing yields back the value exactly,
every bit included. -/
theorem value_bytes_roundtrip :
    ∀ T ∈ registers, ∀ raw, raw < 2 ^ 128 →
      fromBytes (intoBytes 16 raw) = raw ∧ (intoBytes 16 raw).length = 16 := by
  intro T hT raw hraw
  refine ⟨?_, intoBytes_length 16 raw⟩
  rw [fromBytes_intoBytes]
  have h : (256 : Nat) ^ 16 = 2 ^ 128 := by norm_num
  rw [h]
  exact Nat.mod_eq_of_lt hraw

/-- C4 witness at value 0xDEADBEEF of `EndOfInterrupt`. -/
theorem value_bytes_roundtrip_witness :
    fromBytes (intoBytes 16 0xDEADBEEF) = 0xDEADBEEF ∧
    (intoBytes 16 0xDEADBEEF).length = 16 :=
  value_bytes_roundtrip EndOfInterrupt (by decide) 0xDEADBEEF (by decide)

/-- C5: setting one named field changes no other named field and no
reserved bit of the same register type, and setting the spurious-vector
register's vector number and enable bit independently reads both back
unchanged. -/
theorem field_independence :
    (∀ T ∈ registers, ∀ fA ∈ T.fields, ∀ fB ∈ T.fields, fA ≠ fB →
      ∀ raw vA vB,
        getField (setField (setField raw fA.off fA.width vA)
            fB.off fB.width vB) fA.off fA.width
          = getField (setField raw fA.off fA.width vA) fA.off fA.width) ∧
    (∀ T ∈ registers, ∀ f ∈ T.fields, ∀ r ∈ T.reserved, ∀ raw v,
      getField (setField raw f.off f.width v) r.1 r.2
        = getField raw r.1 r.2) ∧
    (∀ raw sv en, sv < 2 ^ 8 → en < 2 ^ 1 →
      getField (setField (setField raw 0 8 sv) 8 1 en) 0 8 = sv ∧
      getField (setField (setField raw 0 8 sv) 8 1 en) 8 1 = en) := by
  have hdisj : ∀ T ∈ registers, ∀ f ∈ T.fields, ∀ g ∈ T.fields, f ≠ g →
      rangesDisjoint f.off f.width g.off g.width := by decide
  have hres : ∀ T ∈ registers, ∀ f ∈ T.fields, ∀ r ∈ T.reserved,
      rangesDisjoint f.off f.width r.1 r.2 := by decide
  refine ⟨?_, ?_, ?_⟩
  · intro T hT fA hfA fB hfB hne raw vA vB
    rcases hdisj T hT fA hfA fB hfB hne with h | h
    · exact getField_setField_below _ fB.off fB.width vB fA.off fA.width h
    · exact getField_setField_above _ fB.off fB.width vB fA.off fA.width h
  · intro T hT f hf r hr raw v
    rcases hres T hT f hf r hr with h | h
    · exact getField_setField_above raw f.off f.width v r.1 r.2 h
    · exact getField_setField_below raw f.off f.width v r.1 r.2 h
  · intro raw sv en hsv hen
    constructor
    · rw [getField_setField_below _ 8 1 en 0 8 (by norm_num)]
      exact getField_setField_same raw 0 8 sv hsv
    · exact getField_setField_same _ 8 1 en hen

/-- C5 witness: in `SpuriousInterruptVector`, writing `apic_enabled`
leaves `spurious_vector` unchanged. -/
theorem field_independence_witness :
    getField (setField (setField 0 0 8 7) 8 1 1) 0 8
      = getField (setField 0 0 8 7) 0 8 :=
  field_independence.1 SpuriousInterruptVector (by decide)
    ⟨"spurious_vector", 0, 8⟩ (by decide) ⟨"apic_enabled", 8, 1⟩ (by decide)
    (by decide) 0 7 1

/-- C6: default construction yields the all-zero bit pattern: the default
`LocalApic` byte image is 1024 zero bytes, and every register type's
default has every named field and reserved range zero. -/
theorem default_all_zero :
    localApicDefaultBytes = List.replicate 1024 0 ∧
    localApicDefaultBytes.length = 1024 ∧
    intoBytes 16 registerDefault = List.replicate 16 0 ∧
    (∀ T ∈ registers, ∀ f ∈ T.fields,
      getField registerDefault f.off f.width = 0) ∧
    (∀ T ∈ registers, ∀ r ∈ T.reserved,
      getField registerDefault r.1 r.2 = 0) := by
  decide

/-- C6 witness: the default `apic_id` field is zero. -/
theorem default_all_zero_witness :
    getField registerDefault 24 4 = 0 :=
  default_all_zero.2.2.2.1 ApicId (by decide) ⟨"apic_id", 24, 4⟩ (by decide)

/-- C7 counterexample: a register value constructed from 16 bytes with a
nonzero top byte is a valid register value whose serialization does not
have its upper 12 bytes zero, so the upper 96 bits do not always read
back as zero. -/
theorem slot_padding_counterexample :
    fromBytes (List.replicate 15 0 ++ [1]) < 2 ^ 128 ∧
    (intoBytes 16 (fromBytes (List.replicate 15 0 ++ [1]))).drop 4
      ≠ List.replicate 12 0 := by
  decide

/-- C7 (amended): the 96 high-order bits carry no accessor — every named
field of every register type lies within the low 32 bits — and every
register value reachable from the default through field setters stays
below `2 ^ 32`, so its 16-byte serialization has the upper 12 bytes zero.
(Values built by `from_bytes` instead keep arbitrary padding bytes
verbatim.) -/
theorem slot_padding_reachable_zero :
    ∀ T ∈ registers,
      (∀ f ∈ T.fields, f.off + f.width ≤ 32) ∧
      (∀ raw, Reachable T raw →
        raw < 2 ^ 32 ∧ (intoBytes 16 raw).drop 4 = List.replicate 12 0) := by
  have hfit : ∀ T ∈ registers, ∀ f ∈ T.fields, f.off + f.width ≤ 32 := by
    decide
  intro T hT
  refine ⟨hfit T hT, ?_⟩
  intro raw hr
  have hlt : raw < 2 ^ 32 := by
    induction hr with
    | base => decide
    | step raw f v hf h ih =>
      exact setField_lt raw f.off f.width v 32 ih (hfit T hT f hf)
  exact ⟨hlt, intoBytes_high_zero raw hlt⟩

/-- C7 witness: the value `ApicId` default with `apic_id := 3` is
reachable and serializes with zero upper bytes. -/
theorem slot_padding_reachable_zero_witness :
    setField registerDefault 24 4 3 < 2 ^ 32 ∧
    (intoBytes 16 (setField registerDefault 24 4 3)).drop 4
      = List.replicate 12 0 :=
  (slot_padding_reachable_zero ApicId (by decide)).2
    (setField registerDefault 24 4 3)
    (Reachable.step registerDefault ⟨"apic_id", 24, 4⟩ 3 (by decide)
      Reachable.base)

/-- C8: default-constructing `ApicId` and setting its 4-bit `apic_id`
field to 3 yields bytes whose first 4, read as a little-endian 32-bit
integer, equal 0x03000000. -/
theorem apic_id_set_three :
    ApicId.fields = [⟨"apic_id", 24, 4⟩] ∧
    fromBytes ((intoBytes 16 (setField registerDefault 24 4 3)).take 4)
      = 0x03000000 := by
  decide

/-- C9: for every register type and every arbitrary 16-byte sequence,
deserializing and re-serializing yields exactly the original bytes,
reserved and slot-padding positions included. -/
theorem bytes_value_roundtrip :
    ∀ T ∈ registers, ∀ b : List Nat, b.length = 16 → (∀ x ∈ b, x < 256) →
      intoBytes 16 (fromBytes b) = b := by
  intro T hT b hb hx
  have h := intoBytes_fromBytes b hx
  rw [hb] at h
  exact h

/-- C9 witness on a byte pattern with nonzero reserved and padding
bytes. -/
theorem bytes_value_roundtrip_witness :
    intoBytes 16 (fromBytes [255, 1, 2, 3, 4, 5, 6, 7, 8, 9, 10, 11, 12,
      13, 14, 255]) = [255, 1, 2, 3, 4, 5, 6, 7, 8, 9, 10, 11, 12, 13, 14,
      255] :=
  bytes_value_roundtrip ApicId (by decide)
    [255, 1, 2, 3, 4, 5, 6, 7, 8, 9, 10, 11, 12, 13, 14, 255] (by decide)
    (by decide)

/-- C10: field setters are last-write-wins — setting a field twice keeps
only the second value — and hence idempotent. -/
theorem setter_last_write_wins :
    ∀ T ∈ registers, ∀ f ∈ T.fields, ∀ raw v1 v2,
      setField (setField raw f.off f.width v1) f.off f.width v2
        = setField raw f.off f.width v2 ∧
      setField (setField raw f.off f.width v1) f.off f.width v1
        = setField raw f.off f.width v1 := by
  intro T hT f hf raw v1 v2
  exact ⟨setField_setField_same raw f.off f.width v1 v2,
    setField_setField_same raw f.off f.width v1 v1⟩

/-- C10 witness at the `divisor` field of `TimerDivConf`. -/
theorem setter_last_write_wins_witness :
    setField (setField 0 0 4 5) 0 4 9 = setField 0 0 4 9 ∧
    setField (setField 0 0 4 5) 0 4 5 = setField 0 0 4 5 :=
  setter_last_write_wins TimerDivConf (by decide) ⟨"divisor", 0, 4⟩
    (by decide) 0 5 9

end Lapic
